import Mathlib

/-!
Shallow embedding of the rxjs-sqs-consumer consumption engine.

The repository has two consumer implementations:

* `src/Manager.ts` (Strategy A): a poll loop (`loop` / `receiveMessage`)
  with a per-message visibility heartbeat
  (`processMessageWithVisibilityHeartbeat`), a single delete on handler
  success, and error classification in the receive path.
* `src/SQSManager.ts` (Strategy B): an rxjs pipeline (`listen` /
  `processMessage`) with retry + exponential backoff + jitter, a visibility
  extender, and a batched delete buffer
  (`addToDeleteBatch` / `flushBatchDelete`).

Each asynchronous routine is embedded as a pure function from its
environment (the outcomes the AWS SDK, the handler and `Math.random` would
produce at each suspension point) to the list of observable events the
routine performs, in the order the single-threaded JavaScript execution
performs them.  Per-message routines are traced on their own; the poll
loop is traced over a list of per-cycle receive outcomes together with the
cycle index (if any) during which an external `stop()` call happens.
-/

/-- Source of the error passed to the `onErrorProccessMessage` callback in
`Manager.ts`: the single `catch` around `await handler` and
`await deleteMessage` receives either a handler rejection or a delete
rejection. -/
inductive ErrSrc
  | handlerError
  | deleteError
deriving DecidableEq

/-- Observable events of the engine.  Events of `Manager.ts` are tagged
with the receive-cycle index `c` and the message index `j` within the
cycle's batch; events of `SQSManager.ts` carry the `sqs` prefix. -/
inductive Event
  | receiveIssued (c : Nat)
  | receiveBatch (c n : Nat)
  | recvErrCallback (c : Nat)
  | configCallback (c : Nat)
  | temporaryCallback (c : Nat)
  | sleepTemporary (c ms : Nat)
  | runningSetFalse
  | shutdownResolved
  | stopResolved
  | dispatch (c j : Nat)
  | settled (c j : Nat)
  | allSettled (c : Nat)
  | startHB (c j : Nat)
  | handlerCall (c j : Nat)
  | handlerDone (c j : Nat)
  | handlerFailed (c j : Nat)
  | extendIssued (c j : Nat)
  | extendDone (c j : Nat)
  | extendFailed (c j : Nat)
  | heartbeatCleared (c j : Nat)
  | visibilityCallback (c j : Nat)
  | deleteIssued (c j : Nat)
  | deleteDone (c j : Nat)
  | deleteFailed (c j : Nat)
  | processingCallback (c j : Nat) (src : ErrSrc)
  | listenReceive (i : Nat)
  | listenNext (i k : Nat)
  | subscriberError (i : Nat)
  | listeningSetFalse
  | sqsStartHB
  | sqsHandlerAttempt (n : Nat)
  | sqsAttemptOk (n : Nat)
  | sqsAttemptErr (n : Nat)
  | sqsRetryWait (k : Nat) (d : ℚ)
  | sqsErrorOut
  | sqsCompleteOut
  | sqsStopHB
  | sqsAckHandoff
  | sqsAckEnqueued
  | sqsExtendIssued
  | sqsExtendOk
  | sqsExtendLogged
deriving DecidableEq

/-- Environment of one `Manager.ts` message: whether `msg.ReceiptHandle`
is present, the outcomes of the heartbeat ticks that fire while the
handler runs (`true` = the `ChangeMessageVisibility` call succeeds), the
outcome of the handler, and the outcome of the `DeleteMessage` call. -/
structure AMsgEnv where
  hasReceipt : Bool
  ticks : List Bool
  handlerOk : Bool
  deleteOk : Bool
deriving DecidableEq

/-- Events of the `extendVisibility` ticks of `Manager.ts` (the
`setInterval` body).  Each successful tick issues and completes one
`ChangeMessageVisibility` call.  On the first failing tick the `catch`
clears the interval (`clearInterval(heartbeatTimer)`) and invokes
`onErrorVisibilityTimeout`, so no further tick fires. -/
def extendVisibilityTicks (c j : Nat) : List Bool → List Event
  | [] => []
  | true :: rest =>
      Event.extendIssued c j :: Event.extendDone c j :: extendVisibilityTicks c j rest
  | false :: _ =>
      [Event.extendIssued c j, Event.extendFailed c j,
       Event.heartbeatCleared c j, Event.visibilityCallback c j]

/-- Trace of `Manager.processMessageWithVisibilityHeartbeat`: return at
once when the message has no `ReceiptHandle`; otherwise start the
heartbeat interval, await the handler (the ticks fire meanwhile), on
success issue the delete (reporting a delete rejection through
`onErrorProccessMessage`), on handler failure invoke
`onErrorProccessMessage`; the `finally` block then calls `clearInterval`
on the still non-null `heartbeatTimer` variable. -/
def processMessageWithVisibilityHeartbeat (c j : Nat) (e : AMsgEnv) : List Event :=
  if e.hasReceipt then
    [Event.startHB c j, Event.handlerCall c j] ++ extendVisibilityTicks c j e.ticks ++
      (if e.handlerOk then
        Event.handlerDone c j :: Event.deleteIssued c j ::
          (if e.deleteOk then [Event.deleteDone c j]
           else [Event.deleteFailed c j, Event.processingCallback c j ErrSrc.deleteError])
       else [Event.handlerFailed c j, Event.processingCallback c j ErrSrc.handlerError]) ++
      [Event.heartbeatCleared c j]
  else []

/-- Dispatch of one received batch in `Manager.receiveMessage`:
`messages.map(msg => this.processMessageWithVisibilityHeartbeat(msg))`
creates one processor promise per message (also for messages without a
receipt handle), and `Promise.allSettled` waits for each to settle. -/
def batchEvents (c : Nat) : Nat → List AMsgEnv → List Event
  | _, [] => []
  | j, e :: rest =>
      Event.dispatch c j ::
        (processMessageWithVisibilityHeartbeat c j e ++
          (Event.settled c j :: batchEvents c (j + 1) rest))

/-- Environment of one receive cycle of `Manager.ts`: either a batch of
messages or a rejected `ReceiveMessage` call, classified by whether the
error matches the non-existent-queue / invalid-credentials shapes. -/
inductive ReceiveOutcome
  | batch (msgs : List AMsgEnv)
  | err (isConfig : Bool)
deriving DecidableEq

/-- Trace of `Manager.loop` driven by a list of per-cycle receive
outcomes.  `tte` is `timeoutTemporaryError`.  `stopAt = some c` means an
external `stop()` call happens while cycle `c` awaits its receive call:
it flips `running` to `false` and its promise resolves right after the
loop calls `resolveShutdown`.  A config-classified receive error invokes
`onErrorReceivingMessage`, then `onErrorConfiguration`, then
`await this.stop()`: if `running` is still `true` this sets it to `false`
and awaits the shutdown promise, which can only resolve after the current
`receiveMessage` returns — the trace ends there with the loop task forever
pending; if an external `stop()` already cleared `running`, the internal
`stop()` returns at once and the loop drains normally. -/
def loop (tte : Nat) (stopAt : Option Nat) : List ReceiveOutcome → Nat → List Event
  | [], _ => []
  | ReceiveOutcome.batch msgs :: rest, c =>
      Event.receiveIssued c ::
        ((if stopAt = some c then [Event.runningSetFalse] else []) ++
          Event.receiveBatch c msgs.length ::
            (batchEvents c 0 msgs ++ Event.allSettled c ::
              (if stopAt = some c then [Event.shutdownResolved, Event.stopResolved]
               else loop tte stopAt rest (c + 1))))
  | ReceiveOutcome.err cfg :: rest, c =>
      Event.receiveIssued c ::
        ((if stopAt = some c then [Event.runningSetFalse] else []) ++
          Event.recvErrCallback c ::
            (if cfg then
              Event.configCallback c ::
                (if stopAt = some c then [Event.shutdownResolved, Event.stopResolved]
                 else [Event.runningSetFalse])
             else
              (if stopAt = some c then [Event.shutdownResolved, Event.stopResolved]
               else Event.temporaryCallback c :: Event.sleepTemporary c tte ::
                      loop tte stopAt rest (c + 1))))

/-- The `running` flag of `Manager.ts`. -/
structure MState where
  running : Bool
deriving DecidableEq

/-- Synchronous prefix of `Manager.stop`: when `running` is `false` it
returns immediately without touching any state; when `running` is `true`
it flips the flag and then awaits the shutdown promise. -/
def stopCall (s : MState) : MState × List Event :=
  if s.running then ({ running := false }, [Event.runningSetFalse]) else (s, [])

/-- The exponential backoff of `SQSManager.processMessage`:
`baseDelay * Math.pow(2, retryCount)`, where rxjs `retry` passes
`retryCount` starting from `1` for the first retry. -/
def backoff (baseDelay : ℚ) (retryCount : Nat) : ℚ := baseDelay * 2 ^ retryCount

/-- The jitter of `SQSManager.processMessage`:
`Math.floor(Math.random() * backoff)`; `r` models the `Math.random()`
draw. -/
def jitter (r : ℚ) (b : ℚ) : ℚ := ((⌊r * b⌋ : ℤ) : ℚ)

/-- Trace of the handler attempts made by rxjs
`retry({ count, delay })` around `from(handler(message))` in
`SQSManager.processMessage`.  `fails` is the number of leading handler
rejections the environment produces, `rand n` the `Math.random()` draw
used after the failure of attempt `n`.  The fuel starts at
`maxRetries + 1` (initial attempt plus at most `maxRetries` retries); on
the last permitted attempt a rejection propagates as an error
notification, otherwise a `timer(jitter)` delay precedes the next
attempt with `retryCount = n + 1`. -/
def retrySequence (baseDelay : ℚ) (rand : Nat → ℚ) (fails : Nat) :
    Nat → Nat → List Event
  | 0, _ => []
  | 1, n =>
      if n < fails then
        [Event.sqsHandlerAttempt n, Event.sqsAttemptErr n, Event.sqsErrorOut]
      else [Event.sqsHandlerAttempt n, Event.sqsAttemptOk n, Event.sqsCompleteOut]
  | fuel + 2, n =>
      if n < fails then
        Event.sqsHandlerAttempt n :: Event.sqsAttemptErr n ::
          Event.sqsRetryWait (n + 1) (jitter (rand n) (backoff baseDelay (n + 1))) ::
            retrySequence baseDelay rand fails (fuel + 1) (n + 1)
      else [Event.sqsHandlerAttempt n, Event.sqsAttemptOk n, Event.sqsCompleteOut]

/-- Trace of one message's pipeline in `SQSManager.processMessage`:
`startVisibilityExtender` returns `null` without starting a heartbeat
when the message has no `ReceiptHandle`; the handler runs under
`retry`; `finalize` then calls `stopVisibilityExtender` (a no-op on
`null`) and `addToDeleteBatch`, which enqueues a delete entry only when
both `MessageId` and `ReceiptHandle` are present. -/
def processMessage (hasReceipt hasId : Bool) (baseDelay : ℚ) (maxRetries : Nat)
    (rand : Nat → ℚ) (fails : Nat) : List Event :=
  (if hasReceipt then [Event.sqsStartHB] else []) ++
    retrySequence baseDelay rand fails (maxRetries + 1) 0 ++
      ((if hasReceipt then [Event.sqsStopHB] else []) ++
        Event.sqsAckHandoff ::
          (if hasId && hasReceipt then [Event.sqsAckEnqueued] else []))

/-- Ticks of `SQSManager.startVisibilityExtender`: every interval tick
issues a `ChangeMessageVisibility` call; a rejection is only logged
(`console.error`) — the interval is not cleared and the next tick fires
regardless. -/
def visibilityExtenderTicks : List Bool → List Event
  | [] => []
  | t :: rest =>
      Event.sqsExtendIssued ::
        (if t then Event.sqsExtendOk else Event.sqsExtendLogged) ::
          visibilityExtenderTicks rest

/-- Environment of one iteration of the `poll` loop in
`SQSManager.listen`: a batch of `n` messages or a rejected receive. -/
inductive ListenOutcome
  | batch (n : Nat)
  | err
deriving DecidableEq

/-- Trace of the `poll` loop of `SQSManager.listen`: on success every
message is forwarded with `subscriber.next`; on a rejected receive the
`catch` calls `subscriber.error`, sets `isListening = false` and
returns — the loop terminates and no further receive is issued. -/
def listen : List ListenOutcome → Nat → List Event
  | [], _ => []
  | ListenOutcome.batch n :: rest, i =>
      Event.listenReceive i ::
        ((List.range n).map (Event.listenNext i) ++ listen rest (i + 1))
  | ListenOutcome.err :: _, i =>
      [Event.listenReceive i, Event.subscriberError i, Event.listeningSetFalse]

/-- A message as seen by `addToDeleteBatch` in `SQSManager.ts`. -/
structure SqsMsg where
  MessageId : Option String
  ReceiptHandle : Option String
deriving DecidableEq

/-- An entry of the `deleteBuffer` of `SQSManager.ts`. -/
abbrev AckEntry := String × String

/-- `SQSManager.flushBatchDelete`: return at once on an empty buffer;
otherwise `splice(0, 10)` removes the first up-to-10 entries and sends
them; on a rejected `DeleteMessageBatch` the batch is `unshift`ed back to
the front of the buffer. -/
def flushBatchDelete (buf : List AckEntry) (ok : Bool) : List AckEntry :=
  if buf = [] then buf
  else if ok then buf.drop 10 else buf.take 10 ++ buf.drop 10

/-- `SQSManager.addToDeleteBatch`: drop messages lacking `MessageId` or
`ReceiptHandle`; otherwise push the entry and flush once the buffer has
reached 10 entries.  Returns the new buffer and the recorded
(size-immediately-before, size-immediately-after) pair of the flush it
triggered, if any. -/
def addToDeleteBatch (buf : List AckEntry) (m : SqsMsg) (flushOk : Bool) :
    List AckEntry × List (Nat × Nat) :=
  match m.MessageId, m.ReceiptHandle with
  | some i, some r =>
      let buf2 := buf ++ [(i, r)]
      if 10 ≤ buf2.length then
        (flushBatchDelete buf2 flushOk, [(buf2.length, (flushBatchDelete buf2 flushOk).length)])
      else (buf2, [])
  | _, _ => (buf, [])

/-- One serialized operation on the delete buffer: an `addToDeleteBatch`
call from a message's `finalize`, or a tick of the 5-second flush timer.
The `flushOk` flag is the outcome of the `DeleteMessageBatch` call a
flush would issue. -/
inductive BatchOp
  | push (m : SqsMsg) (flushOk : Bool)
  | timerFlush (flushOk : Bool)
deriving DecidableEq

/-- Run of a sequence of delete-buffer operations, returning the final
buffer together with the (before, after) buffer sizes recorded at every
`flushBatchDelete` invocation. -/
def runBatcher : List BatchOp → List AckEntry → List AckEntry × List (Nat × Nat)
  | [], buf => (buf, [])
  | BatchOp.push m ok :: rest, buf =>
      let step := addToDeleteBatch buf m ok
      let next := runBatcher rest step.1
      (next.1, step.2 ++ next.2)
  | BatchOp.timerFlush ok :: rest, buf =>
      let next := runBatcher rest (flushBatchDelete buf ok)
      (next.1, (buf.length, (flushBatchDelete buf ok).length) :: next.2)

/-- Whether an event issues an ack for the message being processed: the
`DeleteMessage` call of `Manager.ts` or the hand-off to
`addToDeleteBatch` in `SQSManager.ts`. -/
def isAckEvent : Event → Bool
  | Event.deleteIssued _ _ => true
  | Event.sqsAckHandoff => true
  | _ => false

/-- Whether an event stops a message's heartbeat: a `clearInterval` on
the heartbeat timer in `Manager.ts` or `stopVisibilityExtender` in
`SQSManager.ts`. -/
def isHeartbeatStop : Event → Bool
  | Event.heartbeatCleared _ _ => true
  | Event.sqsStopHB => true
  | _ => false

/-- Helper of `stopsBeforeAcks`: scans the trace left to right carrying
whether a heartbeat stop has been seen; every ack event must find the
flag already set. -/
def stopsBeforeAcksAux : List Event → Bool → Bool
  | [], _ => true
  | e :: rest, seen =>
      if isAckEvent e then seen && stopsBeforeAcksAux rest seen
      else stopsBeforeAcksAux rest (seen || isHeartbeatStop e)

/-- Every ack issued in the trace is strictly preceded by a heartbeat
stop. -/
def stopsBeforeAcks (tr : List Event) : Prop := stopsBeforeAcksAux tr false = true

/-- Number of processor dispatches recorded for cycle `c`. -/
def dispatchCount (c : Nat) (tr : List Event) : Nat :=
  tr.countP fun e => match e with
    | Event.dispatch c' _ => c' == c
    | _ => false


/-- Recognizer for `Event.dispatch c _`. -/
def isDispatchOf (c : Nat) : Event → Bool
  | Event.dispatch c' _ => c' == c
  | _ => false

/-- Recognizer for `Event.deleteIssued _ _`. -/
def isDeleteIssued : Event → Bool
  | Event.deleteIssued _ _ => true
  | _ => false

/-- Recognizer for `Event.visibilityCallback _ _`. -/
def isVisibilityCallback : Event → Bool
  | Event.visibilityCallback _ _ => true
  | _ => false

/-- Recognizer for `Event.extendIssued _ _`. -/
def isExtendIssued : Event → Bool
  | Event.extendIssued _ _ => true
  | _ => false

/-- Recognizer for `Event.sqsExtendIssued`. -/
def isSqsExtendIssued : Event → Bool
  | Event.sqsExtendIssued => true
  | _ => false

/-- Events that the heartbeat ticks of `Manager.ts` can emit. -/
def isTickEvent : Event → Bool
  | Event.extendIssued _ _ => true
  | Event.extendDone _ _ => true
  | Event.extendFailed _ _ => true
  | Event.heartbeatCleared _ _ => true
  | Event.visibilityCallback _ _ => true
  | _ => false

/-- Events that `processMessageWithVisibilityHeartbeat` can emit. -/
def isPMsgEvent : Event → Bool
  | Event.startHB _ _ => true
  | Event.handlerCall _ _ => true
  | Event.handlerDone _ _ => true
  | Event.handlerFailed _ _ => true
  | Event.extendIssued _ _ => true
  | Event.extendDone _ _ => true
  | Event.extendFailed _ _ => true
  | Event.heartbeatCleared _ _ => true
  | Event.visibilityCallback _ _ => true
  | Event.deleteIssued _ _ => true
  | Event.deleteDone _ _ => true
  | Event.deleteFailed _ _ => true
  | Event.processingCallback _ _ _ => true
  | _ => false

/-- Events that `batchEvents` can emit. -/
def isBatchEvent : Event → Bool
  | Event.dispatch _ _ => true
  | Event.settled _ _ => true
  | e => isPMsgEvent e

/-- Events that `retrySequence` can emit. -/
def isRetryEvent : Event → Bool
  | Event.sqsHandlerAttempt _ => true
  | Event.sqsAttemptOk _ => true
  | Event.sqsAttemptErr _ => true
  | Event.sqsRetryWait _ _ => true
  | Event.sqsErrorOut => true
  | Event.sqsCompleteOut => true
  | _ => false

theorem stopsBeforeAcksAux_of_seen (l : List Event) : stopsBeforeAcksAux l true = true := by
  induction l with
  | nil => rfl
  | cons e rest ih => by_cases h : isAckEvent e = true <;> simp [stopsBeforeAcksAux, h, ih]

theorem stopsBeforeAcksAux_append_neutral :
    ∀ (l rest : List Event) (b : Bool),
      (∀ e ∈ l, isAckEvent e = false ∧ isHeartbeatStop e = false) →
      stopsBeforeAcksAux (l ++ rest) b = stopsBeforeAcksAux rest b
  | [], _, _, _ => rfl
  | e :: l, rest, b, h => by
      have he := h e (List.mem_cons_self e l)
      have ih := stopsBeforeAcksAux_append_neutral l rest b
        (fun e' he' => h e' (List.mem_cons_of_mem e he'))
      simpa [stopsBeforeAcksAux, he.1, he.2] using ih

theorem extendVisibilityTicks_shape (c j : Nat) :
    ∀ ticks : List Bool, ∀ e ∈ extendVisibilityTicks c j ticks, isTickEvent e = true
  | [], e, he => by simp [extendVisibilityTicks] at he
  | true :: rest, e, he => by
      simp only [extendVisibilityTicks, List.mem_cons] at he
      rcases he with h | h | h
      · subst h; rfl
      · subst h; rfl
      · exact extendVisibilityTicks_shape c j rest e h
  | false :: rest, e, he => by
      simp [extendVisibilityTicks] at he
      rcases he with h | h | h | h <;> subst h <;> rfl

theorem retrySequence_shape (bd : ℚ) (rand : Nat → ℚ) (fails : Nat) :
    ∀ fuel n, ∀ e ∈ retrySequence bd rand fails fuel n, isRetryEvent e = true
  | 0, n, e, he => by simp [retrySequence] at he
  | 1, n, e, he => by
      simp only [retrySequence] at he
      split at he <;>
        · simp at he
          rcases he with h | h | h <;> subst h <;> rfl
  | fuel + 2, n, e, he => by
      simp only [retrySequence] at he
      split at he
      · simp only [List.mem_cons] at he
        rcases he with h | h | h | h
        · subst h; rfl
        · subst h; rfl
        · subst h; rfl
        · exact retrySequence_shape bd rand fails (fuel + 1) (n + 1) e h
      · simp at he
        rcases he with h | h | h <;> subst h <;> rfl

theorem isRetryEvent_neutral (e : Event) (h : isRetryEvent e = true) :
    isAckEvent e = false ∧ isHeartbeatStop e = false := by
  cases e <;> simp_all [isRetryEvent, isAckEvent, isHeartbeatStop]

theorem extendVisibilityTicks_replicate_true (c j : Nat) :
    ∀ m, ∀ e ∈ extendVisibilityTicks c j (List.replicate m true),
      isAckEvent e = false ∧ isHeartbeatStop e = false
  | 0, e, he => by simp [extendVisibilityTicks] at he
  | m + 1, e, he => by
      simp only [List.replicate_succ, extendVisibilityTicks, List.mem_cons] at he
      rcases he with h | h | h
      · subst h; exact ⟨rfl, rfl⟩
      · subst h; exact ⟨rfl, rfl⟩
      · exact extendVisibilityTicks_replicate_true c j m e h

theorem processMessage_stops_before_acks (hasId : Bool) (bd : ℚ) (maxR : Nat)
    (rand : Nat → ℚ) (fails : Nat) :
    stopsBeforeAcks (processMessage true hasId bd maxR rand fails) := by
  have hrw : processMessage true hasId bd maxR rand fails
      = (Event.sqsStartHB :: retrySequence bd rand fails (maxR + 1) 0) ++
        (Event.sqsStopHB :: Event.sqsAckHandoff ::
          (if hasId then [Event.sqsAckEnqueued] else [])) := by
    simp [processMessage]
  have hne : ∀ e ∈ Event.sqsStartHB :: retrySequence bd rand fails (maxR + 1) 0,
      isAckEvent e = false ∧ isHeartbeatStop e = false := by
    intro e he
    rcases List.mem_cons.mp he with h | h
    · subst h; exact ⟨rfl, rfl⟩
    · exact isRetryEvent_neutral e (retrySequence_shape bd rand fails _ _ e h)
  unfold stopsBeforeAcks
  rw [hrw, stopsBeforeAcksAux_append_neutral _ _ _ hne]
  simp [stopsBeforeAcksAux, isAckEvent, isHeartbeatStop, stopsBeforeAcksAux_of_seen]

theorem processMessageWithVisibilityHeartbeat_ack_unstopped (c j m : Nat) (dOk : Bool) :
    ¬ stopsBeforeAcks
      (processMessageWithVisibilityHeartbeat c j ⟨true, List.replicate m true, true, dOk⟩) := by
  have hrw : processMessageWithVisibilityHeartbeat c j ⟨true, List.replicate m true, true, dOk⟩
      = (Event.startHB c j :: Event.handlerCall c j ::
          extendVisibilityTicks c j (List.replicate m true)) ++
        (Event.handlerDone c j :: Event.deleteIssued c j ::
          ((if dOk then [Event.deleteDone c j]
            else [Event.deleteFailed c j, Event.processingCallback c j ErrSrc.deleteError]) ++
            [Event.heartbeatCleared c j])) := by
    simp [processMessageWithVisibilityHeartbeat]
  have hne : ∀ e ∈ Event.startHB c j :: Event.handlerCall c j ::
      extendVisibilityTicks c j (List.replicate m true),
      isAckEvent e = false ∧ isHeartbeatStop e = false := by
    intro e he
    rcases List.mem_cons.mp he with h | he
    · subst h; exact ⟨rfl, rfl⟩
    rcases List.mem_cons.mp he with h | he
    · subst h; exact ⟨rfl, rfl⟩
    · exact extendVisibilityTicks_replicate_true c j m e he
  unfold stopsBeforeAcks
  rw [hrw, stopsBeforeAcksAux_append_neutral _ _ _ hne]
  simp [stopsBeforeAcksAux, isAckEvent, isHeartbeatStop]

/-- C1: the claim that the heartbeat is stopped strictly before the ack
is issued fails on the code: in `Manager.ts`, on a successful handler the
`DeleteMessage` call is awaited inside the `try` block while the
heartbeat interval is only cleared afterwards in the `finally` block, so
at the concrete input (receipt present, no heartbeat tick, handler and
delete succeed) the delete is issued with no prior heartbeat stop. -/
theorem C1_counterexample :
    ¬ stopsBeforeAcks (processMessageWithVisibilityHeartbeat 0 0 ⟨true, [], true, true⟩) := by
  unfold stopsBeforeAcks
  decide

/-- C1 (amended): under Strategy B (`SQSManager.processMessage`) every
ack hand-off is strictly preceded by the heartbeat stop on every outcome
path, but under Strategy A (`Manager.ts`) on the handler-success path the
delete is issued before the heartbeat is stopped (the `finally` block
clears the interval only after the delete), for any number of successful
heartbeat ticks and either delete outcome. -/
theorem C1_heartbeat_stop_order :
    (∀ (hasId : Bool) (bd : ℚ) (maxR : Nat) (rand : Nat → ℚ) (fails : Nat),
        stopsBeforeAcks (processMessage true hasId bd maxR rand fails)) ∧
    (∀ (c j m : Nat) (dOk : Bool),
        ¬ stopsBeforeAcks
          (processMessageWithVisibilityHeartbeat c j ⟨true, List.replicate m true, true, dOk⟩)) :=
  ⟨processMessage_stops_before_acks, processMessageWithVisibilityHeartbeat_ack_unstopped⟩

theorem retrySequence_errorOut (bd : ℚ) (rand : Nat → ℚ) (fails : Nat) :
    ∀ fuel n, 0 < fuel → fuel + n ≤ fails →
      Event.sqsErrorOut ∈ retrySequence bd rand fails fuel n
  | 0, _, h0, _ => absurd h0 (by simp)
  | 1, n, _, hle => by
      have hn : n < fails := by omega
      simp [retrySequence, hn]
  | fuel + 2, n, _, hle => by
      have hn : n < fails := by omega
      have ih := retrySequence_errorOut bd rand fails (fuel + 1) (n + 1) (by omega) (by omega)
      simp [retrySequence, hn, ih]

/-- C6: under Strategy B, for every dispatched message with a receipt
handle and for every outcome (`fails` leading handler rejections, success
afterwards if any attempt is left), the `finalize` callback hands the
message to `addToDeleteBatch` after stopping the heartbeat; when the
retries are exhausted (`maxRetries < fails`) the error notification is
emitted and the hand-off still happens — the processing-error path does
not skip the ack. -/
theorem C6_unconditional_ack :
    ∀ (hasId : Bool) (bd : ℚ) (maxRetries : Nat) (rand : Nat → ℚ) (fails : Nat),
      Event.sqsAckHandoff ∈ processMessage true hasId bd maxRetries rand fails ∧
      stopsBeforeAcks (processMessage true hasId bd maxRetries rand fails) ∧
      (maxRetries < fails → Event.sqsErrorOut ∈ processMessage true hasId bd maxRetries rand fails) := by
  intro hasId bd maxRetries rand fails
  refine ⟨?_, processMessage_stops_before_acks hasId bd maxRetries rand fails, ?_⟩
  · simp [processMessage]
  · intro hm
    have h := retrySequence_errorOut bd rand fails (maxRetries + 1) 0 (by omega) (by omega)
    simp [processMessage, h]

/-- C6 witness: concrete instantiation with one allowed retry and three
handler failures — an exhausted failure whose message is still handed to
the batcher after the heartbeat stop. -/
theorem C6_witness :
    Event.sqsAckHandoff ∈ processMessage true true 1000 1 (fun _ => 0) 3 ∧
    stopsBeforeAcks (processMessage true true 1000 1 (fun _ => 0) 3) ∧
    Event.sqsErrorOut ∈ processMessage true true 1000 1 (fun _ => 0) 3 := by
  obtain ⟨h1, h2, h3⟩ := C6_unconditional_ack true 1000 1 (fun _ => 0) 3
  exact ⟨h1, h2, h3 (by norm_num)⟩

theorem retrySequence_retryWait_inv (bd : ℚ) (rand : Nat → ℚ) (fails : Nat) :
    ∀ fuel n k d, Event.sqsRetryWait k d ∈ retrySequence bd rand fails fuel n →
      ∃ m, n ≤ m ∧ k = m + 1 ∧ d = jitter (rand m) (backoff bd (m + 1))
  | 0, n, k, d, h => by simp [retrySequence] at h
  | 1, n, k, d, h => by
      simp only [retrySequence] at h
      split at h <;> simp at h
  | fuel + 2, n, k, d, h => by
      simp only [retrySequence] at h
      split at h
      · simp only [List.mem_cons] at h
        rcases h with h | h | h | h
        · exact absurd h (by simp)
        · exact absurd h (by simp)
        · simp only [Event.sqsRetryWait.injEq] at h
          exact ⟨n, le_refl n, h.1, h.2⟩
        · obtain ⟨m, hm, hk, hd⟩ := retrySequence_retryWait_inv bd rand fails (fuel + 1) (n + 1) k d h
          exact ⟨m, by omega, hk, hd⟩
      · simp at h

theorem jitter_bound (r b : ℚ) (h0 : 0 ≤ r) (h1 : r < 1) (hb : 0 < b) :
    0 ≤ jitter r b ∧ jitter r b < b := by
  unfold jitter
  constructor
  · exact_mod_cast Int.floor_nonneg.mpr (mul_nonneg h0 hb.le)
  · calc ((⌊r * b⌋ : ℤ) : ℚ) ≤ r * b := Int.floor_le _
    _ < b := mul_lt_of_lt_one_left hb h1

theorem backoff_pos (bd : ℚ) (k : Nat) (hbd : 0 < bd) : 0 < backoff bd k := by
  unfold backoff
  positivity

/-- C3 (amended): the delay inserted after the failure of attempt `n`
(before attempt `n + 1`) equals `baseDelay * 2 ^ (n + 1)` jittered to
`Math.floor(r * backoff)` for the random draw `r` — rxjs passes
`retryCount = n + 1` to the `delay` function, so the bound is
`0 ≤ delay < baseDelay * 2 ^ (n + 1)`, one power of two larger than the
claimed `baseDelay * 2 ^ n`. -/
theorem C3_retry_delay (hasReceipt hasId : Bool) (bd : ℚ) (maxRetries : Nat)
    (rand : Nat → ℚ) (fails k : Nat) (d : ℚ)
    (hbd : 0 < bd) (hr0 : ∀ n, 0 ≤ rand n) (hr1 : ∀ n, rand n < 1)
    (hmem : Event.sqsRetryWait k d ∈ processMessage hasReceipt hasId bd maxRetries rand fails) :
    (∃ n, k = n + 1 ∧ d = jitter (rand n) (backoff bd (n + 1))) ∧
      0 ≤ d ∧ d < backoff bd k := by
  have hmem' : Event.sqsRetryWait k d ∈ retrySequence bd rand fails (maxRetries + 1) 0 := by
    cases hasReceipt <;> cases hasId <;> simpa [processMessage] using hmem
  obtain ⟨m, _, hk, hd⟩ := retrySequence_retryWait_inv bd rand fails (maxRetries + 1) 0 k d hmem'
  subst hk
  subst hd
  exact ⟨⟨m, rfl, rfl⟩, jitter_bound (rand m) (backoff bd (m + 1)) (hr0 m) (hr1 m)
    (backoff_pos bd (m + 1) hbd)⟩

/-- C3 counterexample: with `baseDelay = 1000` and a `Math.random` draw
of `3/4`, the delay inserted after the failure of attempt `0` (before
attempt `1`) is `1500`, which violates the claimed bound
`delay_0 < baseDelay * 2 ^ 0 = 1000`. -/
theorem C3_counterexample :
    Event.sqsRetryWait 1 1500 ∈ processMessage true true 1000 5 (fun _ => 3 / 4) 1 ∧
    ¬ ((1500 : ℚ) < 1000 * 2 ^ 0) := by
  constructor
  · have h : retrySequence 1000 (fun _ => (3 : ℚ) / 4) 1 6 0 =
        [Event.sqsHandlerAttempt 0, Event.sqsAttemptErr 0, Event.sqsRetryWait 1 1500,
         Event.sqsHandlerAttempt 1, Event.sqsAttemptOk 1, Event.sqsCompleteOut] := by
      norm_num [retrySequence, jitter, backoff]
    simp [processMessage, h]
  · norm_num

/-- C3 witness: the amended bound instantiated at the counterexample's
input: the delay `1500` before attempt `1` satisfies
`0 ≤ 1500 < baseDelay * 2 ^ 1 = 2000`. -/
theorem C3_witness :
    (∃ n, 1 = n + 1 ∧ (1500 : ℚ) = jitter ((fun _ => (3 : ℚ) / 4) n) (backoff 1000 (n + 1))) ∧
      0 ≤ (1500 : ℚ) ∧ (1500 : ℚ) < backoff 1000 1 := by
  refine C3_retry_delay true true 1000 5 (fun _ => 3 / 4) 1 1 1500 (by norm_num)
    (fun _ => by norm_num) (fun _ => by norm_num) ?_
  have h : retrySequence 1000 (fun _ => (3 : ℚ) / 4) 1 6 0 =
      [Event.sqsHandlerAttempt 0, Event.sqsAttemptErr 0, Event.sqsRetryWait 1 1500,
       Event.sqsHandlerAttempt 1, Event.sqsAttemptOk 1, Event.sqsCompleteOut] := by
    norm_num [retrySequence, jitter, backoff]
  simp [processMessage, h]

theorem retrySequence_head (bd : ℚ) (rand : Nat → ℚ) (fails : Nat) :
    ∀ fuel n, 0 < fuel → Event.sqsHandlerAttempt n ∈ retrySequence bd rand fails fuel n
  | 0, _, h => absurd h (by simp)
  | 1, _, _ => by unfold retrySequence; split <;> simp
  | _ + 2, _, _ => by unfold retrySequence; split <;> simp

/-- C9 (amended): a message without a receipt handle is not dispatched at
all in `Manager.ts` (empty trace: no handler call, no heartbeat, no
delete); in `SQSManager.processMessage` no heartbeat is started and no
delete entry is enqueued for it, but the handler is still invoked. -/
theorem C9_no_receipt :
    (∀ (c j : Nat) (ticks : List Bool) (hOk dOk : Bool),
        processMessageWithVisibilityHeartbeat c j ⟨false, ticks, hOk, dOk⟩ = []) ∧
    (∀ (hasId : Bool) (bd : ℚ) (maxRetries : Nat) (rand : Nat → ℚ) (fails : Nat),
        Event.sqsStartHB ∉ processMessage false hasId bd maxRetries rand fails ∧
        Event.sqsAckEnqueued ∉ processMessage false hasId bd maxRetries rand fails ∧
        Event.sqsHandlerAttempt 0 ∈ processMessage false hasId bd maxRetries rand fails) := by
  constructor
  · intro c j ticks hOk dOk
    simp [processMessageWithVisibilityHeartbeat]
  · intro hasId bd maxRetries rand fails
    refine ⟨?_, ?_, ?_⟩
    · intro hmem
      simp [processMessage] at hmem
      have := retrySequence_shape bd rand fails (maxRetries + 1) 0 _ hmem
      simp [isRetryEvent] at this
    · intro hmem
      simp [processMessage] at hmem
      have := retrySequence_shape bd rand fails (maxRetries + 1) 0 _ hmem
      simp [isRetryEvent] at this
    · have h := retrySequence_head bd rand fails (maxRetries + 1) 0 (by omega)
      simp [processMessage, h]

/-- C9 counterexample: a receipt-less message under Strategy B — the
claim's "not dispatched: handler never invoked, no heartbeat started, no
ack issued" fails at this concrete input because the handler is invoked
(`sqsHandlerAttempt 0` is in the trace). -/
theorem C9_counterexample :
    ¬ (Event.sqsHandlerAttempt 0 ∉ processMessage false true 1000 5 (fun _ => 0) 0 ∧
       Event.sqsStartHB ∉ processMessage false true 1000 5 (fun _ => 0) 0 ∧
       Event.sqsAckEnqueued ∉ processMessage false true 1000 5 (fun _ => 0) 0) := by
  decide

/-- C10: in Strategy A, when the handler resolves but the delete call
rejects, `onErrorProccessMessage` is invoked with the delete error (same
`catch` as handler failures), the delete is issued exactly once (never
retried), and the delete failure precedes the callback. -/
theorem C10_delete_error_callback :
    ∀ (c j : Nat) (ticks : List Bool),
      Event.processingCallback c j ErrSrc.deleteError
          ∈ processMessageWithVisibilityHeartbeat c j ⟨true, ticks, true, false⟩ ∧
      (processMessageWithVisibilityHeartbeat c j ⟨true, ticks, true, false⟩).countP
          isDeleteIssued = 1 ∧
      List.Sublist
        [Event.deleteIssued c j, Event.deleteFailed c j,
          Event.processingCallback c j ErrSrc.deleteError]
        (processMessageWithVisibilityHeartbeat c j ⟨true, ticks, true, false⟩) := by
  intro c j ticks
  have hrw : processMessageWithVisibilityHeartbeat c j ⟨true, ticks, true, false⟩
      = (Event.startHB c j :: Event.handlerCall c j :: extendVisibilityTicks c j ticks) ++
        ([Event.handlerDone c j, Event.deleteIssued c j, Event.deleteFailed c j,
          Event.processingCallback c j ErrSrc.deleteError] ++ [Event.heartbeatCleared c j]) := by
    simp [processMessageWithVisibilityHeartbeat]
  refine ⟨?_, ?_, ?_⟩
  · rw [hrw]; simp
  · rw [hrw, List.countP_append]
    have h1 : List.countP isDeleteIssued
        (Event.startHB c j :: Event.handlerCall c j :: extendVisibilityTicks c j ticks) = 0 := by
      rw [List.countP_eq_zero]
      intro e he
      rcases List.mem_cons.mp he with h | he
      · subst h; simp [isDeleteIssued]
      rcases List.mem_cons.mp he with h | he
      · subst h; simp [isDeleteIssued]
      · have := extendVisibilityTicks_shape c j ticks e he
        cases e <;> simp_all [isTickEvent, isDeleteIssued]
    rw [h1]
    simp [List.countP_cons, List.countP_append, isDeleteIssued]
  · rw [hrw]
    have hs : List.Sublist
        [Event.deleteIssued c j, Event.deleteFailed c j,
          Event.processingCallback c j ErrSrc.deleteError]
        ([Event.handlerDone c j, Event.deleteIssued c j, Event.deleteFailed c j,
          Event.processingCallback c j ErrSrc.deleteError] ++ [Event.heartbeatCleared c j]) := by
      refine List.Sublist.trans ?_ (List.sublist_append_left _ _)
      exact List.Sublist.cons _ (List.Sublist.refl _)
    exact List.Sublist.trans hs (List.sublist_append_right _ _)

theorem extendVisibilityTicks_fail_counts (c j : Nat) :
    ∀ (m : Nat) (junk : List Bool),
      (extendVisibilityTicks c j (List.replicate m true ++ false :: junk)).countP
          isVisibilityCallback = 1 ∧
      (extendVisibilityTicks c j (List.replicate m true ++ false :: junk)).countP
          isExtendIssued = m + 1
  | 0, junk => by
      simp [extendVisibilityTicks, List.countP_cons, isVisibilityCallback, isExtendIssued]
  | m + 1, junk => by
      have ih := extendVisibilityTicks_fail_counts c j m junk
      simp [List.replicate_succ, extendVisibilityTicks, List.countP_cons,
        isVisibilityCallback, isExtendIssued, ih.1, ih.2]

theorem visibilityExtenderTicks_no_stop :
    ∀ ticks : List Bool, ∀ e ∈ visibilityExtenderTicks ticks, isHeartbeatStop e = false
  | [], e, he => by simp [visibilityExtenderTicks] at he
  | t :: rest, e, he => by
      simp only [visibilityExtenderTicks, List.mem_cons] at he
      rcases he with h | h | h
      · subst h; rfl
      · cases t <;> simp_all [isHeartbeatStop]
      · exact visibilityExtenderTicks_no_stop rest e h

theorem visibilityExtenderTicks_count :
    ∀ ticks : List Bool, (visibilityExtenderTicks ticks).countP isSqsExtendIssued = ticks.length
  | [] => rfl
  | t :: rest => by
      have ih := visibilityExtenderTicks_count rest
      cases t <;> simp [visibilityExtenderTicks, List.countP_cons, isSqsExtendIssued, ih]

/-- C5 (amended): in `Manager.ts`, when a lease-extension tick fails
after `okPre` successful ticks, the visibility-error callback fires
exactly once, no further extension call is issued (`okPre + 1` in
total — the heartbeat interval is cleared by the failing tick's `catch`),
the handler still reaches its own outcome, and the ack (delete) still
occurs on handler success.  In `SQSManager.ts`, by contrast, an extension
failure is only logged: the extender issues one call per tick no matter
how many fail, and no event stopping the heartbeat is ever emitted by the
ticks. -/
theorem C5_extension_failure :
    (∀ (c j okPre : Nat) (junk : List Bool) (hOk dOk : Bool),
        (processMessageWithVisibilityHeartbeat c j
            ⟨true, List.replicate okPre true ++ false :: junk, hOk, dOk⟩).countP
            isVisibilityCallback = 1 ∧
        (processMessageWithVisibilityHeartbeat c j
            ⟨true, List.replicate okPre true ++ false :: junk, hOk, dOk⟩).countP
            isExtendIssued = okPre + 1 ∧
        (hOk = true → Event.deleteIssued c j ∈ processMessageWithVisibilityHeartbeat c j
            ⟨true, List.replicate okPre true ++ false :: junk, hOk, dOk⟩) ∧
        (hOk = true → Event.handlerDone c j ∈ processMessageWithVisibilityHeartbeat c j
            ⟨true, List.replicate okPre true ++ false :: junk, hOk, dOk⟩) ∧
        (hOk = false → Event.handlerFailed c j ∈ processMessageWithVisibilityHeartbeat c j
            ⟨true, List.replicate okPre true ++ false :: junk, hOk, dOk⟩)) ∧
    (∀ ticks : List Bool,
        (visibilityExtenderTicks ticks).countP isSqsExtendIssued = ticks.length ∧
        ∀ e ∈ visibilityExtenderTicks ticks, isHeartbeatStop e = false) := by
  constructor
  · intro c j okPre junk hOk dOk
    have h1 := (extendVisibilityTicks_fail_counts c j okPre junk).1
    have h2 := (extendVisibilityTicks_fail_counts c j okPre junk).2
    cases hOk <;> cases dOk <;>
      simp [processMessageWithVisibilityHeartbeat, List.countP_append, List.countP_cons,
        isVisibilityCallback, isExtendIssued, h1, h2]
  · intro ticks
    exact ⟨visibilityExtenderTicks_count ticks, visibilityExtenderTicks_no_stop ticks⟩

/-- C5 witness: instantiation at cycle 0, message 0, one successful tick
before the failing one, handler and delete succeeding. -/
theorem C5_witness :
    (processMessageWithVisibilityHeartbeat 0 0
        ⟨true, List.replicate 1 true ++ false :: [], true, true⟩).countP
        isVisibilityCallback = 1 ∧
    (processMessageWithVisibilityHeartbeat 0 0
        ⟨true, List.replicate 1 true ++ false :: [], true, true⟩).countP
        isExtendIssued = 2 ∧
    Event.deleteIssued 0 0 ∈ processMessageWithVisibilityHeartbeat 0 0
        ⟨true, List.replicate 1 true ++ false :: [], true, true⟩ ∧
    Event.handlerDone 0 0 ∈ processMessageWithVisibilityHeartbeat 0 0
        ⟨true, List.replicate 1 true ++ false :: [], true, true⟩ := by
  obtain ⟨h1, h2, h3, h4, _⟩ := C5_extension_failure.1 0 0 1 [] true true
  exact ⟨h1, h2, h3 rfl, h4 rfl⟩

/-- C5 counterexample: in `SQSManager.ts` a failing extension tick does
not stop the heartbeat — after a failure on the first tick a second
extension call is still issued, contradicting the claim that the
heartbeat is stopped and the extension not retried. -/
theorem C5_counterexample :
    (visibilityExtenderTicks [false, true]).countP isSqsExtendIssued = 2 ∧
    ¬ ((visibilityExtenderTicks [false, true]).countP isSqsExtendIssued ≤ 1) := by
  decide

/-- C4 (amended): in the `Manager.ts` poll loop a non-configuration
receive error while running invokes `onErrorReceivingMessage` and
`onErrorTemporary`, sleeps `timeoutTemporaryError`, and the loop
continues with the next receive cycle — temporary errors never terminate
that engine.  In `SQSManager.listen`, by contrast, any receive error
forwards the error to the subscriber, clears `isListening` and returns:
the listen loop terminates and no further receive is issued. -/
theorem C4_temporary_error_paths :
    (∀ (tte c : Nat) (rest : List ReceiveOutcome),
        loop tte none (ReceiveOutcome.err false :: rest) c =
          Event.receiveIssued c :: Event.recvErrCallback c :: Event.temporaryCallback c ::
            Event.sleepTemporary c tte :: loop tte none rest (c + 1)) ∧
    (∀ (tte c : Nat) (o : ReceiveOutcome) (rest : List ReceiveOutcome),
        Event.receiveIssued (c + 1) ∈ loop tte none (ReceiveOutcome.err false :: o :: rest) c) ∧
    (∀ (i : Nat) (rest : List ListenOutcome),
        listen (ListenOutcome.err :: rest) i =
          [Event.listenReceive i, Event.subscriberError i, Event.listeningSetFalse]) := by
  refine ⟨?_, ?_, ?_⟩
  · intro tte c rest
    simp [loop]
  · intro tte c o rest
    cases o <;> simp [loop]
  · intro i rest
    rfl

/-- C4 counterexample: the claim that a non-configuration receive failure
is retried and never terminates the engine fails for
`SQSManager.listen`: after an error on the first receive the loop has
terminated (`isListening` set to `false`) and the second cycle's receive
is never issued. -/
theorem C4_counterexample :
    Event.listeningSetFalse ∈ listen [ListenOutcome.err, ListenOutcome.batch 1] 0 ∧
    Event.listenReceive 1 ∉ listen [ListenOutcome.err, ListenOutcome.batch 1] 0 := by
  decide

/-- C2: behaviour of the `Manager.ts` loop at the failing input — a
configuration-classified receive error (queue does not exist) with no
prior external `stop()` call.  The configuration callback is invoked
exactly once and no second receive is ever issued, but the internal
`await this.stop()` awaits a shutdown promise that can only resolve after
the current `receiveMessage` returns, so the loop deadlocks:
`resolveShutdown` is never called and the `stop()` promise never
resolves — the engine never completes its transition to Stopped. -/
theorem C2_config_error_run :
    loop 5000 none [ReceiveOutcome.err true, ReceiveOutcome.batch [⟨true, [], true, true⟩]] 0 =
      [Event.receiveIssued 0, Event.recvErrCallback 0, Event.configCallback 0,
       Event.runningSetFalse] ∧
    (loop 5000 none [ReceiveOutcome.err true, ReceiveOutcome.batch [⟨true, [], true, true⟩]]
        0).count (Event.configCallback 0) = 1 ∧
    Event.shutdownResolved ∉
      loop 5000 none [ReceiveOutcome.err true, ReceiveOutcome.batch [⟨true, [], true, true⟩]] 0 ∧
    Event.stopResolved ∉
      loop 5000 none [ReceiveOutcome.err true, ReceiveOutcome.batch [⟨true, [], true, true⟩]] 0 ∧
    Event.receiveIssued 1 ∉
      loop 5000 none [ReceiveOutcome.err true, ReceiveOutcome.batch [⟨true, [], true, true⟩]] 0 := by
  decide

theorem dispatchCount_eq (c : Nat) (tr : List Event) :
    dispatchCount c tr = tr.countP (isDispatchOf c) := by
  unfold dispatchCount isDispatchOf
  rfl

theorem pmsg_no_dispatch (cc c j : Nat) (env : AMsgEnv) :
    (processMessageWithVisibilityHeartbeat c j env).countP (isDispatchOf cc) = 0 := by
  rcases env with ⟨hr, ticks, hOk, dOk⟩
  have ht : (extendVisibilityTicks c j ticks).countP (isDispatchOf cc) = 0 := by
    rw [List.countP_eq_zero]
    intro e he
    have := extendVisibilityTicks_shape c j ticks e he
    cases e <;> simp_all [isTickEvent, isDispatchOf]
  cases hr <;> cases hOk <;> cases dOk <;>
    simp [processMessageWithVisibilityHeartbeat, List.countP_append, List.countP_cons,
      isDispatchOf, ht]

theorem pmsg_not_mem (c j : Nat) (env : AMsgEnv) :
    Event.stopResolved ∉ processMessageWithVisibilityHeartbeat c j env ∧
    Event.shutdownResolved ∉ processMessageWithVisibilityHeartbeat c j env := by
  rcases env with ⟨hr, ticks, hOk, dOk⟩
  have ht : ∀ x : Event, isTickEvent x = false → x ∉ extendVisibilityTicks c j ticks := by
    intro x hx hmem
    have := extendVisibilityTicks_shape c j ticks x hmem
    rw [this] at hx
    exact Bool.noConfusion hx
  constructor <;>
    (cases hr <;> cases hOk <;> cases dOk <;>
      simp [processMessageWithVisibilityHeartbeat] <;>
      exact ht _ rfl)

theorem batchEvents_dispatchCount (c : Nat) :
    ∀ (msgs : List AMsgEnv) (j : Nat),
      (batchEvents c j msgs).countP (isDispatchOf c) = msgs.length
  | [], _ => rfl
  | env :: rest, j => by
      have ih := batchEvents_dispatchCount c rest (j + 1)
      have hp := pmsg_no_dispatch c c j env
      simp [batchEvents, List.countP_cons, List.countP_append, isDispatchOf, hp, ih]

theorem batchEvents_not_mem (c : Nat) :
    ∀ (j : Nat) (msgs : List AMsgEnv),
      Event.stopResolved ∉ batchEvents c j msgs ∧
      Event.shutdownResolved ∉ batchEvents c j msgs
  | _, [] => by simp [batchEvents]
  | j, env :: rest => by
      have ih := batchEvents_not_mem c (j + 1) rest
      have hp := pmsg_not_mem c j env
      constructor
      · intro hmem
        simp only [batchEvents, List.mem_cons, List.mem_append] at hmem
        rcases hmem with h | h | h | h
        · exact absurd h (by simp)
        · exact hp.1 h
        · exact absurd h (by simp)
        · exact ih.1 h
      · intro hmem
        simp only [batchEvents, List.mem_cons, List.mem_append] at hmem
        rcases hmem with h | h | h | h
        · exact absurd h (by simp)
        · exact hp.2 h
        · exact absurd h (by simp)
        · exact ih.2 h

theorem batchEvents_settled (c : Nat) :
    ∀ (msgs : List AMsgEnv) (j0 k : Nat), k < msgs.length →
      Event.settled c (j0 + k) ∈ batchEvents c j0 msgs
  | [], _, k, h => absurd h (by simp)
  | env :: rest, j0, 0, _ => by simp [batchEvents]
  | env :: rest, j0, k + 1, h => by
      have ih := batchEvents_settled c rest (j0 + 1) k (by simpa using h)
      have harith : j0 + (k + 1) = j0 + 1 + k := by omega
      rw [harith]
      simp [batchEvents, ih]

/-- C7: `stop()` called while not running is a no-op that returns
immediately; each received batch of size `N` dispatches exactly `N`
processor lifecycles; and when an external `stop()` is called while a
receive cycle is in flight, its promise resolves only as the very last
event of the run — strictly after each of that cycle's `N` processors has
settled and the `allSettled` barrier and `resolveShutdown` have run. -/
theorem C7_stop_drain :
    (∀ s : MState, s.running = false → stopCall s = (s, [])) ∧
    (∀ (c : Nat) (msgs : List AMsgEnv), dispatchCount c (batchEvents c 0 msgs) = msgs.length) ∧
    (∀ (tte c : Nat) (msgs : List AMsgEnv) (rest : List ReceiveOutcome) (j : Nat),
        j < msgs.length →
          Event.settled c j ∈ loop tte (some c) (ReceiveOutcome.batch msgs :: rest) c) ∧
    (∀ (tte c : Nat) (msgs : List AMsgEnv) (rest : List ReceiveOutcome),
        (loop tte (some c) (ReceiveOutcome.batch msgs :: rest) c).getLast? =
          some Event.stopResolved ∧
        (loop tte (some c) (ReceiveOutcome.batch msgs :: rest) c).count Event.stopResolved = 1) := by
  refine ⟨?_, ?_, ?_, ?_⟩
  · intro s h
    simp [stopCall, h]
  · intro c msgs
    rw [dispatchCount_eq]
    exact batchEvents_dispatchCount c msgs 0
  · intro tte c msgs rest j hj
    have h := batchEvents_settled c msgs 0 j hj
    rw [Nat.zero_add] at h
    simp [loop, h]
  · intro tte c msgs rest
    have hrw : loop tte (some c) (ReceiveOutcome.batch msgs :: rest) c =
        (Event.receiveIssued c :: Event.runningSetFalse :: Event.receiveBatch c msgs.length ::
          (batchEvents c 0 msgs ++ [Event.allSettled c, Event.shutdownResolved])) ++
          [Event.stopResolved] := by
      simp [loop]
    rw [hrw]
    constructor
    · exact List.getLast?_concat _
    · rw [List.count_append]
      have h0 : (Event.receiveIssued c :: Event.runningSetFalse ::
          Event.receiveBatch c msgs.length ::
          (batchEvents c 0 msgs ++ [Event.allSettled c, Event.shutdownResolved])).count
          Event.stopResolved = 0 := by
        rw [List.count_eq_zero]
        intro hmem
        simp only [List.mem_cons, List.mem_append] at hmem
        rcases hmem with h | h | h | h | h
        · exact absurd h (by simp)
        · exact absurd h (by simp)
        · exact absurd h (by simp)
        · exact (batchEvents_not_mem c 0 msgs).1 h
        · simp at h
      rw [h0]
      simp

/-- C7 witness: a stopped engine's `stop()` is a no-op, and a
single-message batch received while `stop()` is pending dispatches exactly
one processor whose settlement precedes the final `stopResolved`. -/
theorem C7_witness :
    stopCall ⟨false⟩ = (⟨false⟩, []) ∧
    dispatchCount 0 (batchEvents 0 0 [⟨true, [], true, true⟩]) = 1 ∧
    Event.settled 0 0 ∈ loop 5000 (some 0) [ReceiveOutcome.batch [⟨true, [], true, true⟩]] 0 ∧
    (loop 5000 (some 0) [ReceiveOutcome.batch [⟨true, [], true, true⟩]] 0).getLast? =
      some Event.stopResolved ∧
    (loop 5000 (some 0) [ReceiveOutcome.batch [⟨true, [], true, true⟩]] 0).count
      Event.stopResolved = 1 := by
  obtain ⟨h1, h2, h3, h4⟩ := C7_stop_drain
  exact ⟨h1 ⟨false⟩ rfl, h2 0 [⟨true, [], true, true⟩],
    h3 5000 0 [⟨true, [], true, true⟩] [] 0 (by decide),
    (h4 5000 0 [⟨true, [], true, true⟩] []).1, (h4 5000 0 [⟨true, [], true, true⟩] []).2⟩

/-- Outcome of the `DeleteMessageBatch` call a buffer operation would
trigger. -/
def flushOkOf : BatchOp → Bool
  | BatchOp.push _ ok => ok
  | BatchOp.timerFlush ok => ok

theorem flushBatchDelete_ok_len (buf : List AckEntry) (h : buf.length ≤ 10) :
    (flushBatchDelete buf true).length = 0 := by
  unfold flushBatchDelete
  split
  · simp_all
  · simp [List.length_drop]
    omega

theorem addToDeleteBatch_ok (buf : List AckEntry) (m : SqsMsg) (hbuf : buf.length ≤ 9) :
    (addToDeleteBatch buf m true).1.length ≤ 9 ∧
    ∀ p ∈ (addToDeleteBatch buf m true).2, p.1 ≤ 10 ∧ p.2 = 0 := by
  rcases m with ⟨mid, mrh⟩
  rcases mid with _ | i
  · constructor
    · simpa [addToDeleteBatch] using hbuf
    · intro p hp
      simp [addToDeleteBatch] at hp
  rcases mrh with _ | r
  · constructor
    · simpa [addToDeleteBatch] using hbuf
    · intro p hp
      simp [addToDeleteBatch] at hp
  · have hsplit : addToDeleteBatch buf ⟨some i, some r⟩ true =
        if 10 ≤ (buf ++ [(i, r)]).length then
          (flushBatchDelete (buf ++ [(i, r)]) true,
           [((buf ++ [(i, r)]).length, (flushBatchDelete (buf ++ [(i, r)]) true).length)])
        else (buf ++ [(i, r)], []) := rfl
    have hlenadd : (buf ++ [(i, r)]).length = buf.length + 1 := by simp
    by_cases hlen : 10 ≤ (buf ++ [(i, r)]).length
    · have hlen' : (buf ++ [(i, r)]).length ≤ 10 := by omega
      have hf := flushBatchDelete_ok_len (buf ++ [(i, r)]) hlen'
      rw [hsplit, if_pos hlen]
      constructor
      · dsimp only
        omega
      · intro p hp
        dsimp only at hp
        rw [List.mem_singleton] at hp
        subst hp
        exact ⟨hlen', hf⟩
    · rw [hsplit, if_neg hlen]
      constructor
      · dsimp only
        omega
      · intro p hp
        dsimp only at hp
        simp at hp

/-- C8 (amended): provided every `DeleteMessageBatch` call succeeds, the
delete buffer holds at most 9 entries at rest, every flush sees at most
10 entries immediately before and 0 immediately after.  (When a flush
fails the whole batch is re-inserted at the front, so the buffer can
exceed the batch maximum — see the counterexample.) -/
theorem C8_buffer_bound :
    ∀ ops : List BatchOp, (∀ op ∈ ops, flushOkOf op = true) →
      ∀ buf : List AckEntry, buf.length ≤ 9 →
        (runBatcher ops buf).1.length ≤ 9 ∧
        ∀ p ∈ (runBatcher ops buf).2, p.1 ≤ 10 ∧ p.2 = 0
  | [], _, buf, hbuf => ⟨hbuf, by simp [runBatcher]⟩
  | BatchOp.push m ok :: rest, h, buf, hbuf => by
      have hok : flushOkOf (BatchOp.push m ok) = true := h _ (List.mem_cons_self _ _)
      simp only [flushOkOf] at hok
      subst hok
      have hstep := addToDeleteBatch_ok buf m hbuf
      have hrec := C8_buffer_bound rest (fun op hop => h op (List.mem_cons_of_mem _ hop))
        (addToDeleteBatch buf m true).1 hstep.1
      constructor
      · simpa [runBatcher] using hrec.1
      · intro p hp
        simp only [runBatcher] at hp
        rcases List.mem_append.mp hp with h1 | h1
        · exact hstep.2 p h1
        · exact hrec.2 p h1
  | BatchOp.timerFlush ok :: rest, h, buf, hbuf => by
      have hok : flushOkOf (BatchOp.timerFlush ok) = true := h _ (List.mem_cons_self _ _)
      simp only [flushOkOf] at hok
      subst hok
      have hf := flushBatchDelete_ok_len buf (by omega)
      have hrec := C8_buffer_bound rest (fun op hop => h op (List.mem_cons_of_mem _ hop))
        (flushBatchDelete buf true) (by omega)
      constructor
      · simpa [runBatcher] using hrec.1
      · intro p hp
        simp only [runBatcher, List.mem_cons] at hp
        rcases hp with h1 | h1
        · subst h1
          exact ⟨by omega, hf⟩
        · exact hrec.2 p h1

/-- C8 counterexample: eleven messages added while every
`DeleteMessageBatch` call fails — the failed batches are re-inserted, so
the eleventh add sees the flush trigger with 11 entries in the buffer and
11 entries remain after: the claimed bound of 10 immediately before and
after every flush is violated. -/
theorem C8_counterexample :
    ¬ (∀ p ∈ (runBatcher (List.replicate 11 (BatchOp.push ⟨some "i", some "r"⟩ false)) []).2,
        p.1 ≤ 10 ∧ p.2 ≤ 10) := by
  decide

/-- C8 witness: the amended bound at a concrete run of eleven adds with
all flushes succeeding. -/
theorem C8_witness :
    (runBatcher (List.replicate 11 (BatchOp.push ⟨some "i", some "r"⟩ true)) []).1.length ≤ 9 ∧
    ∀ p ∈ (runBatcher (List.replicate 11 (BatchOp.push ⟨some "i", some "r"⟩ true)) []).2,
      p.1 ≤ 10 ∧ p.2 = 0 :=
  C8_buffer_bound _ (by decide) [] (by decide)
